import Mathlib

/-!
Verification of the transcript-acquisition core of the stash backend.

Python strings are modelled as lists of characters (`Str`), machine-level
behaviour (network, regex, JSON/XML parsing, the external transcript
library) as explicit oracle functions supplied in an environment record,
and Python exceptions as `Except PyErr`.  Every definition follows the
corresponding function in `backend/services/youtube_fetcher.py` or
`backend/services/video_service.py`; helpers that model the Python
standard library (`str.strip`, `str.split`, `urllib.parse.urlparse`,
`urllib.parse.parse_qs`) carry a doc comment saying which stdlib
behaviour they capture.
-/

set_option maxHeartbeats 1600000

/-- Python strings, modelled as lists of characters. -/
abbrev Str := List Char

/-- Models Python `str.strip()`: drop leading and trailing whitespace. -/
def pyStrip (s : Str) : Str :=
  ((s.dropWhile Char.isWhitespace).reverse.dropWhile Char.isWhitespace).reverse

/-- Models Python `s.startswith(pat)`: `listBeg pat s` is true iff `s` begins with `pat`. -/
def listBeg : Str → Str → Bool
  | [], _ => true
  | _ :: _, [] => false
  | p :: ps, c :: cs => p == c && listBeg ps cs

/-- Models Python substring membership `pat in s`. -/
def listOccurs (pat : Str) : Str → Bool
  | [] => listBeg pat []
  | c :: cs => listBeg pat (c :: cs) || listOccurs pat cs

/-- Splits at the first occurrence of `pat` (nonempty in all uses), returning
the part before it and the part after it; `none` when `pat` does not occur. -/
def splitFirst (pat : Str) : Str → Option (Str × Str)
  | [] => if pat.isEmpty then some ([], []) else none
  | c :: cs =>
    if listBeg pat (c :: cs) then some ([], (c :: cs).drop pat.length)
    else
      match splitFirst pat cs with
      | some (a, b) => some (c :: a, b)
      | none => none

/-- Fuel-driven worker for `pySplit`; the fuel `s.length + 1` always suffices
because each found separator occurrence strictly shrinks the remainder. -/
def pySplitGo (pat : Str) : Nat → Str → List Str
  | 0, s => [s]
  | n + 1, s =>
    match splitFirst pat s with
    | none => [s]
    | some (a, b) => a :: pySplitGo pat n b

/-- Models Python `s.split(pat)` for a nonempty separator `pat`:
leftmost non-overlapping occurrences. -/
def pySplit (pat : Str) (s : Str) : List Str :=
  pySplitGo pat (s.length + 1) s

/-- Models the scheme test of `urllib.parse.urlsplit`: an ASCII letter
followed by ASCII letters, digits, `+`, `-` or `.`. -/
def validScheme : Str → Bool
  | [] => false
  | c :: cs => c.isAlpha && cs.all (fun d => d.isAlphanum || d == '+' || d == '-' || d == '.')

/-- Models the scheme-stripping step of `urllib.parse.urlsplit`: when the text
before the first `:` is a valid scheme, continue with the text after it. -/
def stripScheme (s : Str) : Str :=
  match splitFirst [':'] s with
  | some (a, b) => if validScheme a then b else s
  | none => s

/-- Models the netloc-stripping step of `urllib.parse.urlsplit`: after a
leading `//`, the netloc extends to the first `/`, `?` or `#`, which is kept. -/
def stripNetloc (s : Str) : Str :=
  match s with
  | '/' :: '/' :: rest => rest.dropWhile (fun c => !(c == '/' || c == '?' || c == '#'))
  | _ => s

/-- Models the fragment split of `urllib.parse.urlsplit`: everything from the
first `#` on is the fragment and is discarded here. -/
def dropFrag (s : Str) : Str :=
  match splitFirst ['#'] s with
  | some (a, _) => a
  | none => s

/-- Models the query split of `urllib.parse.urlsplit`: the pair
(text before the first `?`, text after it). -/
def splitQ (s : Str) : Str × Str :=
  match splitFirst ['?'] s with
  | some (a, b) => (a, b)
  | none => (s, [])

/-- Models `urllib.parse.urlparse(s).path` (scheme and netloc stripped,
fragment and query removed). -/
def urlPath (s : Str) : Str :=
  (splitQ (dropFrag (stripNetloc (stripScheme s)))).1

/-- Models `urllib.parse.urlparse(s).query`. -/
def urlQuery (s : Str) : Str :=
  (splitQ (dropFrag (stripNetloc (stripScheme s)))).2

/-- Models one field of `urllib.parse.parse_qsl` with default arguments:
split at the first `=` (fields without `=` are skipped, and so are fields
whose value is blank, since `keep_blank_values` defaults to false).
Percent- and plus-decoding are not modelled; the theorems below only apply
it to inputs without `%` and `+`. -/
def parseField (f : Str) : Option (Str × Str) :=
  match splitFirst ['='] f with
  | none => none
  | some (k, v) => if v = [] then none else some (k, v)

/-- Models `urllib.parse.parse_qsl(qs)` with default arguments: split the
query string on `&` and parse each field, keeping order. -/
def parseQsl (qs : Str) : List (Str × Str) :=
  (qs.splitOn '&').filterMap parseField

/-- Models `parse_qs(qs).get(k, [None])[0]`: the first value bound to key
`k`, if any. -/
def firstParam (k : Str) (qs : Str) : Option Str :=
  ((parseQsl qs).find? (fun p => p.1 == k)).map (·.2)

/-- A Python exception, reduced to its class name and its message. -/
structure PyErr where
  name : Str
  msg : Str
deriving DecidableEq, Repr

deriving instance DecidableEq for Except

/-- Embeds `YouTubeFetcher.extract_video_id` (youtube_fetcher.py lines
155-189).  The `try/except` around the urllib calls is not represented
because the modelled urllib functions are total; `.getD 1 []` stands for a
Python index `[1]` that is guaranteed in range by the guarding `in` test. -/
def extract_video_id (url : Str) : Except PyErr Str :=
  let raw := pyStrip url
  if listOccurs "youtu.be/".toList raw then
    let path_id := (urlPath raw).dropWhile (· == '/')
    if path_id ≠ [] then
      .ok ((pySplit ['/'] path_id).headD [])
    else
      .ok ((pySplit ['?'] ((pySplit "youtu.be/".toList raw).getD 1 [])).headD [])
  else if listOccurs ['v', '='] raw then
    match firstParam ['v'] (urlQuery raw) with
    | some v =>
      if v ≠ [] then .ok v
      else .ok ((pySplit ['&'] ((pySplit ['v', '='] raw).getD 1 [])).headD [])
    | none => .ok ((pySplit ['&'] ((pySplit ['v', '='] raw).getD 1 [])).headD [])
  else
    .error ⟨ "ValueError".toList, "Please use a standard YouTube URL".toList⟩

/-- Models Python `" ".join(ts)`. -/
def joinSpace (ts : List Str) : Str := List.intercalate [' '] ts

/-- One element of a Python list handed to the normalizer: a dict (whose
`"text"` entry, when present, is a string), a plain string, or any other
object. -/
inductive PyItem where
  | record (text : Option Str)
  | strv (s : Str)
  | other
deriving DecidableEq

/-- A transcript payload as `_join_text_from_payload` receives it: an object
carrying `language` / `is_generated` attributes and possibly a `snippets`
list (each snippet's `.text` attribute, when present, is a string), or a
plain Python list, or any other value. -/
inductive Payload where
  | obj (snippets : Option (List (Option Str))) (language : Option Str)
      (is_generated : Option Bool)
  | pylist (items : List PyItem)
  | other
deriving DecidableEq

/-- The normalized dict built by `_join_text_from_payload`. -/
structure Normalized where
  transcript : Str
  segments_count : Nat
  language : Option Str
  is_generated : Option Bool
deriving DecidableEq

/-- Models `str(item.get("text", ""))` on a list element: dicts yield their
`"text"` entry (default `""`); any non-dict raises `AttributeError` because
it has no `.get` method. -/
def dictGetText : PyItem → Except PyErr Str
  | .record t => .ok (t.getD [])
  | .strv _ => .error ⟨ "AttributeError".toList, "object has no attribute get".toList⟩
  | .other => .error ⟨ "AttributeError".toList, "object has no attribute get".toList⟩

/-- Models the elementwise demand of `" ".join(payload)`: any non-string
element raises `TypeError`. -/
def asPyStr : PyItem → Except PyErr Str
  | .strv s => .ok s
  | .record _ => .error ⟨ "TypeError".toList, "sequence item: expected str instance".toList⟩
  | .other => .error ⟨ "TypeError".toList, "sequence item: expected str instance".toList⟩

/-- Embeds `YouTubeFetcher._join_text_from_payload` (youtube_fetcher.py lines
191-240).  Branch order follows the source: a list-shaped `snippets`
attribute first, then a nonempty list whose first element is a dict, then a
nonempty list whose first element is a string, else the unknown-shape
result.  `language` / `is_generated` are read with `getattr(_, _, None)`,
so they are `none` for plain lists. -/
def join_text_from_payload : Payload → Except PyErr Normalized
  | .obj (some snips) lang gen =>
      .ok ⟨ joinSpace (((snips.map (fun s => s.getD [])).filter (· ≠ []))),
        snips.length, lang, gen⟩
  | .obj none lang gen => .ok ⟨[], 0, lang, gen⟩
  | .pylist [] => .ok ⟨[], 0, none, none⟩
  | .pylist (PyItem.record t :: rest) => do
      let ts ← (PyItem.record t :: rest).mapM dictGetText
      .ok ⟨ joinSpace (ts.filter (· ≠ [])), (PyItem.record t :: rest).length, none, none⟩
  | .pylist (PyItem.strv s :: rest) => do
      let ts ← (PyItem.strv s :: rest).mapM asPyStr
      .ok ⟨ joinSpace ts, (PyItem.strv s :: rest).length, none, none⟩
  | .pylist (PyItem.other :: _) => .ok ⟨[], 0, none, none⟩
  | .other => .ok ⟨[], 0, none, none⟩

/-- One entry of `captionTracks`: `track.get("languageCode", "")`,
`track.get("kind", "")` and the optional `baseUrl`. -/
structure Track where
  languageCode : Str
  kind : Str
  baseUrl : Option Str
deriving DecidableEq

/-- Embeds the local `priority` function of
`_fetch_transcript_via_scraperapi` (youtube_fetcher.py lines 106-115). -/
def priority (t : Track) : Nat × Str :=
  if listBeg "en".toList t.languageCode ∧ t.kind ≠ "asr".toList then (0, t.languageCode)
  else if listBeg "en".toList t.languageCode ∧ t.kind = "asr".toList then (1, t.languageCode)
  else if t.kind ≠ "asr".toList then (2, t.languageCode)
  else (3, t.languageCode)

/-- Models Python string comparison `<`: lexicographic on code points. -/
def strLt : Str → Str → Bool
  | [], [] => false
  | [], _ :: _ => true
  | _ :: _, [] => false
  | a :: xs, b :: ys =>
    if a.toNat < b.toNat then true else if b.toNat < a.toNat then false else strLt xs ys

/-- Models Python tuple comparison `<=` on `(int, str)` sort keys. -/
def keyLe (x y : Nat × Str) : Bool :=
  if x.1 < y.1 then true
  else if y.1 < x.1 then false
  else strLt x.2 y.2 || x.2 == y.2

/-- Comparator underlying `sorted(tracks, key=priority)`. -/
def trackLe (a b : Track) : Bool := keyLe (priority a) (priority b)

/-- Inserts `a` before the first element `b` with `le a b`; the building
block of a stable insertion sort. -/
def insertLe (le : α → α → Bool) (a : α) : List α → List α
  | [] => [a]
  | b :: bs => if le a b then a :: b :: bs else b :: insertLe le a bs

/-- Stable insertion sort.  Python's `sorted` is a stable sort, and for a
total preorder a stable sort's output is uniquely determined, so this
models `sorted` exactly. -/
def stableSort (le : α → α → Bool) : List α → List α
  | [] => []
  | x :: xs => insertLe le x (stableSort le xs)

/-- Models `sorted(tracks, key=priority)`. -/
def sortTracks (ts : List Track) : List Track := stableSort trackLe ts

/-- Result of `json.loads` on the `ytInitialPlayerResponse` blob, reduced to
the part the code reads:
`captions.playerCaptionsTracklistRenderer.captionTracks` (defaulting to
`[]` at every missing level, as the chained `.get(_, {})` calls do). -/
structure PlayerJson where
  captionTracks : List Track
deriving DecidableEq

/-- Oracles for the external effects used by
`_fetch_transcript_via_scraperapi`: `fetch_with_scraperapi` (raises or
returns a body), the `ytInitialPlayerResponse` regex search (group 1),
`json.loads`, XML parsing via `ET.fromstring(..).findall("text")` (each
node's `.text or ""`), and `html.unescape`. -/
structure ScraperEnv where
  fetch : Str → Except PyErr Str
  search : Str → Option Str
  jsonLoads : Str → Except PyErr PlayerJson
  xmlParse : Str → Except PyErr (List Str)
  unescape : Str → Str

/-- The page URL built for a video id. -/
def watchUrl (video_id : Str) : Str := "https://www.youtube.com/watch?v=".toList ++ video_id

/-- Models `s.replace("\n", " ")`. -/
def replaceNewlines (s : Str) : Str := s.map (fun c => if c == '\n' then ' ' else c)

/-- Embeds `YouTubeFetcher._fetch_transcript_via_scraperapi`
(youtube_fetcher.py lines 58-153).  Every failure path of the source,
including exceptions reaching the enclosing `try`, returns `None`; the
`sortTracks ts = []` branch is unreachable because sorting preserves
length. -/
def fetch_transcript_via_scraperapi (use_scraper : Bool) (env : ScraperEnv)
    (video_id : Str) : Option (List PyItem) :=
  if !use_scraper then none
  else
    match env.fetch (watchUrl video_id) with
    | .error _ => none
    | .ok htmlText =>
      if pyStrip htmlText = [] then none
      else
        match env.search htmlText with
        | none => none
        | some m =>
          match env.jsonLoads m with
          | .error _ => none
          | .ok pj =>
            if pj.captionTracks = [] then none
            else
              match sortTracks pj.captionTracks with
              | [] => none
              | chosen :: _ =>
                match chosen.baseUrl with
                | none => none
                | some transcript_url =>
                  match env.fetch transcript_url with
                  | .error _ => none
                  | .ok transcript_text =>
                    if pyStrip transcript_text = [] then none
                    else
                      match env.xmlParse transcript_text with
                      | .error _ => none
                      | .ok raws =>
                        let segments :=
                          (raws.map
                            (fun raw => pyStrip (replaceNewlines (env.unescape raw)))).filter
                            (· ≠ [])
                        if segments = [] then none
                        else some (segments.map (fun t => PyItem.record (some t)))

/-- Environment of `get_transcript`: the `SCRAPER_API_KEY` flag, the scraper
oracles, and the direct `youtube_transcript_api` call (the
`api.fetch` / `get_transcript` version shim collapses into one library-call
outcome per video id). -/
structure FetchEnv where
  use_scraper : Bool
  scraper : ScraperEnv
  directFetch : Str → Except PyErr Payload

/-- The dict returned by `get_transcript`: the success shape carries
`video_id`, `transcript`, `segments_count`, `language`, `is_generated`;
the failure shape carries `error`, `error_type` and the (possibly unknown)
`video_id`. -/
inductive Envelope where
  | success (video_id : Str) (transcript : Str) (segments_count : Nat)
      (language : Option Str) (is_generated : Option Bool)
  | failure (error : Str) (error_type : Str) (video_id : Option Str)
deriving DecidableEq

/-- Models `str(e) if str(e) else type(e).__name__`. -/
def errMessage (e : PyErr) : Str := if e.msg = [] then e.name else e.msg

/-- Embeds `YouTubeFetcher.get_transcript` (youtube_fetcher.py lines
242-302): extract the id, try the scraper adapter when configured, fall
back to the direct library call, normalize, and convert any raised
exception into the failure envelope. -/
def get_transcript (env : FetchEnv) (url : Str) : Envelope :=
  match extract_video_id url with
  | .error e => .failure (errMessage e) e.name none
  | .ok video_id =>
    let step : Except PyErr Normalized :=
      match (if env.use_scraper then
              fetch_transcript_via_scraperapi env.use_scraper env.scraper video_id
             else none) with
      | some segs => join_text_from_payload (.pylist segs)
      | none =>
        match env.directFetch video_id with
        | .error e => .error e
        | .ok payload => join_text_from_payload payload
    match step with
    | .ok n => .success video_id n.transcript n.segments_count n.language n.is_generated
    | .error e => .failure (errMessage e) e.name (some video_id)

/-- A stored video record: its `user_id` entry (possibly absent) and the
rest of its content. -/
structure Video where
  user_id : Option Int
  fields : List (Str × Str)
deriving DecidableEq

/-- An opaque dict returned by a repository delete/update call. -/
structure RepoResult where
  payload : List (Str × Str)
deriving DecidableEq

/-- The repository operations `VideoService` depends on, as oracles. -/
structure VideoRepo where
  get_video_by_id : Str → Option Video
  deleteResult : Str → RepoResult
  updateResult : Str → List (Str × Str) → RepoResult

/-- Outcome of a `VideoService` mutation: an error dict built by the service
itself (the repository was not invoked), or the repository call's own
return value. -/
inductive ServiceResult where
  | failure (error : Str)
  | fromRepo (r : RepoResult)
deriving DecidableEq

/-- Embeds `VideoService.get_video` (video_service.py lines 87-101). -/
def VideoService.get_video (repo : VideoRepo) (video_id : Str) (user_id : Int) :
    Option Video :=
  match repo.get_video_by_id video_id with
  | some video => if video.user_id = some user_id then some video else none
  | none => none

/-- Embeds `VideoService.delete_video` (video_service.py lines 103-121). -/
def VideoService.delete_video (repo : VideoRepo) (video_id : Str) (user_id : Int) :
    ServiceResult :=
  match repo.get_video_by_id video_id with
  | none => .failure "Video not found".toList
  | some video =>
    if video.user_id ≠ some user_id then .failure "Access denied".toList
    else .fromRepo (repo.deleteResult video_id)

/-- Embeds `VideoService.update_video` (video_service.py lines 123-142). -/
def VideoService.update_video (repo : VideoRepo) (video_id : Str) (user_id : Int)
    (updates : List (Str × Str)) : ServiceResult :=
  match repo.get_video_by_id video_id with
  | none => .failure "Video not found".toList
  | some video =>
    if video.user_id ≠ some user_id then .failure "Access denied".toList
    else .fromRepo (repo.updateResult video_id updates)

/-- Models Python `str.lower()` (ASCII case folding suffices here). -/
def lowerStr (s : Str) : Str := s.map Char.toLower

/-- Modelled from the spec: the case-insensitive substring classification of
terminal error messages described in spec sections 4.4 and 7 (captions or
transcripts turned off, "not found", XML/parse failures, else unknown).
No such classification exists in the source; this definition renders the
claim's words for comparison with `get_transcript`. -/
def classify_spec (m : Str) : Str :=
  let l := lowerStr m
  if listOccurs "turned off".toList l || listOccurs "disabled".toList l then
    "TranscriptsDisabled".toList
  else if listOccurs "not found".toList l then "NoTranscriptFound".toList
  else if listOccurs "xml".toList l || listOccurs "parse".toList l then
    "UpstreamParseError".toList
  else "Unknown".toList

/-- Modelled from the spec: the track sort key parameterized by a
preferred-language set (spec section 4.2 step 4), membership-tested rather
than the source's hard-coded `startswith("en")`. -/
def priority_spec (preferred : List Str) (t : Track) : Nat × Str :=
  if preferred.contains t.languageCode ∧ t.kind ≠ "asr".toList then (0, t.languageCode)
  else if preferred.contains t.languageCode ∧ t.kind = "asr".toList then (1, t.languageCode)
  else if t.kind ≠ "asr".toList then (2, t.languageCode)
  else (3, t.languageCode)

/-- Modelled from the spec: the selection the claim describes, minimizing
`priority_spec` with ties broken by language code ascending. -/
def chosen_spec (preferred : List Str) (ts : List Track) : Option Track :=
  (stableSort (fun a b => keyLe (priority_spec preferred a) (priority_spec preferred b)) ts).head?

/-- Characters allowed in the keys and values of a well-formed watch-URL
query: ASCII alphanumerics, `-` and `_` (the charset of video ids and of
the usual watch-URL parameters). -/
def qchar (c : Char) : Bool := c.isAlphanum || c == '-' || c == '_'

/-- A string drawn entirely from the query charset. -/
def goodStr (s : Str) : Bool := s.all qchar

/-- Renders one query pair as `key=value`. -/
def renderPair (p : Str × Str) : Str := p.1 ++ '=' :: p.2

/-- Joins query fields with `&`, as Python `"&".join` would. -/
def joinAmp : List Str → Str
  | [] => []
  | [f] => f
  | f :: g :: rest => f ++ '&' :: joinAmp (g :: rest)

/-- The fixed part of a canonical watch URL, up to and including the `?`. -/
def watchStem : Str := "https://www.youtube.com/watch?".toList

/-- A canonical watch URL with the given query pairs. -/
def watchURL (ps : List (Str × Str)) : Str := watchStem ++ joinAmp (ps.map renderPair)

/-- Characters that can occur in a rendered query: the query charset plus
the separators `&` and `=`. -/
def queryChar (c : Char) : Bool := qchar c || c == '&' || c == '='

/-- A Python list is homogeneous for the normalizer when, whichever branch
its first element selects, every element fits that branch. -/
def itemsOk : List PyItem → Bool
  | [] => true
  | PyItem.record _ :: rest =>
    rest.all (fun i => match i with | PyItem.record _ => true | _ => false)
  | PyItem.strv _ :: rest =>
    rest.all (fun i => match i with | PyItem.strv _ => true | _ => false)
  | PyItem.other :: _ => true

/-- Payloads on which the source normalizer cannot raise: anything except a
list that mixes dicts or strings with other element kinds. -/
def payloadOk : Payload → Bool
  | .pylist items => itemsOk items
  | _ => true

/-- A two-video repository used to instantiate the ownership theorem. -/
def sampleRepo : VideoRepo where
  get_video_by_id vid :=
    if vid = "a".toList then some ⟨ some 1, [("title".toList, "first".toList)]⟩
    else if vid = "b".toList then some ⟨ some 2, []⟩
    else none
  deleteResult _ := ⟨[("success".toList, "true".toList)]⟩
  updateResult _ _ := ⟨[("updated".toList, "true".toList)]⟩

/-- A scraper environment whose every step fails (no key effects succeed). -/
def failScraperEnv : ScraperEnv where
  fetch _ := .error ⟨ "HTTPError".toList, "407 proxy error".toList⟩
  search _ := none
  jsonLoads _ := .error ⟨ "JSONDecodeError".toList, "bad json".toList⟩
  xmlParse _ := .error ⟨ "ParseError".toList, "bad xml".toList⟩
  unescape := id

/-- An environment where the scraper is disabled and the direct library call
raises a `ValueError` whose message mentions "not found". -/
def envC9 : FetchEnv where
  use_scraper := false
  scraper := failScraperEnv
  directFetch _ := .error ⟨ "ValueError".toList, "transcript not found".toList⟩

/-- A scraper environment in which every step succeeds: the page fetch
returns HTML, the JSON blob parses to one English track, and the caption
XML yields the snippets "Hi" and "there". -/
def scrapeOkEnv : ScraperEnv where
  fetch u :=
    if u = watchUrl "abc".toList then .ok "<html>page</html>".toList
    else .ok "<transcript>xml</transcript>".toList
  search _ := some "jsonblob".toList
  jsonLoads _ := .ok ⟨[⟨ "en".toList, [], some "capurl".toList⟩]⟩
  xmlParse _ := .ok ["Hi".toList, "there".toList]
  unescape := id

/-- Scraper configured and succeeding while the direct call would fail. -/
def envScrapeOk : FetchEnv where
  use_scraper := true
  scraper := scrapeOkEnv
  directFetch _ := .error ⟨ "RequestBlocked".toList, "ip blocked".toList⟩

/-- Scraper configured but soft-failing (no JSON blob), direct call
succeeding with a classic list-of-dicts payload. -/
def envFallback : FetchEnv where
  use_scraper := true
  scraper := { failScraperEnv with fetch := fun _ => .ok "<html>page</html>".toList }
  directFetch _ :=
    .ok (.pylist [PyItem.record (some "Hi".toList), PyItem.record (some "there".toList)])

/-- Scraper configured but soft-failing, direct call succeeding with a
heterogeneous list that the normalizer cannot process. -/
def envMixed : FetchEnv where
  use_scraper := true
  scraper := { failScraperEnv with fetch := fun _ => .ok "<html>page</html>".toList }
  directFetch _ :=
    .ok (.pylist [PyItem.record (some "Hi".toList), PyItem.strv "there".toList])


/-! ## Helper lemmas about the normalizer -/

theorem mapM_record_texts (l : List Str) :
    (l.map (fun t => PyItem.record (some t))).mapM dictGetText = Except.ok l := by
  induction l with
  | nil => rfl
  | cons x xs ih =>
    rw [List.map_cons, List.mapM_cons, ih]
    rfl

theorem mapM_strv_texts (l : List Str) :
    (l.map PyItem.strv).mapM asPyStr = Except.ok l := by
  induction l with
  | nil => rfl
  | cons x xs ih =>
    rw [List.map_cons, List.mapM_cons, ih]
    rfl

theorem mapM_dictGetText_exists (items : List PyItem)
    (h : ∀ i ∈ items, ∃ t, i = PyItem.record t) :
    ∃ ts : List Str, items.mapM dictGetText = Except.ok ts := by
  induction items with
  | nil => exact ⟨[], rfl⟩
  | cons i rest ih =>
    obtain ⟨t, rfl⟩ := h i (List.mem_cons_self _ _)
    obtain ⟨ts, hts⟩ := ih (fun j hj => h j (List.mem_cons_of_mem _ hj))
    refine ⟨(t.getD []) :: ts, ?_⟩
    rw [List.mapM_cons, hts]
    rfl

theorem mapM_asPyStr_exists (items : List PyItem)
    (h : ∀ i ∈ items, ∃ s, i = PyItem.strv s) :
    ∃ ts : List Str, items.mapM asPyStr = Except.ok ts := by
  induction items with
  | nil => exact ⟨[], rfl⟩
  | cons i rest ih =>
    obtain ⟨s, rfl⟩ := h i (List.mem_cons_self _ _)
    obtain ⟨ts, hts⟩ := ih (fun j hj => h j (List.mem_cons_of_mem _ hj))
    refine ⟨s :: ts, ?_⟩
    rw [List.mapM_cons, hts]
    rfl

theorem join_record_branch (t0 : Option Str) (rest : List PyItem) (ts : List Str)
    (h : (PyItem.record t0 :: rest).mapM dictGetText = Except.ok ts) :
    join_text_from_payload (.pylist (PyItem.record t0 :: rest)) =
      .ok ⟨ joinSpace (ts.filter (· ≠ [])), (PyItem.record t0 :: rest).length, none, none⟩ := by
  simp only [join_text_from_payload, h]
  rfl

theorem join_strv_branch (s0 : Str) (rest : List PyItem) (ts : List Str)
    (h : (PyItem.strv s0 :: rest).mapM asPyStr = Except.ok ts) :
    join_text_from_payload (.pylist (PyItem.strv s0 :: rest)) =
      .ok ⟨ joinSpace ts, (PyItem.strv s0 :: rest).length, none, none⟩ := by
  simp only [join_text_from_payload, h]
  rfl

theorem map_getD_some (ts : List Str) : (ts.map some).map (fun s => s.getD []) = ts := by
  simp [Function.comp_def]

/-! ## C4: shape invariance of the normalizer -/

/-- C4: for any fixed sequence of non-empty caption texts, the three payload
encodings — a snippets object, a list of records with a text key, and a
list of plain strings — normalize to the same space-joined transcript and
the same segment count. -/
theorem normalize_shape_invariance (ts : List Str) (lang : Option Str) (gen : Option Bool)
    (h : ∀ t ∈ ts, t ≠ []) :
    join_text_from_payload (.obj (some (ts.map some)) lang gen) =
      .ok ⟨ joinSpace ts, ts.length, lang, gen⟩ ∧
    join_text_from_payload (.pylist (ts.map (fun t => PyItem.record (some t)))) =
      .ok ⟨ joinSpace ts, ts.length, none, none⟩ ∧
    join_text_from_payload (.pylist (ts.map PyItem.strv)) =
      .ok ⟨ joinSpace ts, ts.length, none, none⟩ := by
  have hfilter : ts.filter (· ≠ []) = ts := by
    apply List.filter_eq_self.mpr
    intro a ha
    simpa using h a ha
  refine ⟨?_, ?_, ?_⟩
  · have hobj : join_text_from_payload (.obj (some (ts.map some)) lang gen) =
        .ok ⟨ joinSpace (((ts.map some).map (fun s => s.getD [])).filter (· ≠ [])),
          (ts.map some).length, lang, gen⟩ := rfl
    rw [hobj, map_getD_some, hfilter, List.length_map]
  · cases ts with
    | nil => exact rfl
    | cons t rest =>
      have hm := mapM_record_texts (t :: rest)
      rw [List.map_cons] at hm ⊢
      rw [join_record_branch t (rest.map (fun t => PyItem.record (some t))) (t :: rest) hm,
        hfilter]
      simp
  · cases ts with
    | nil => exact rfl
    | cons t rest =>
      have hm := mapM_strv_texts (t :: rest)
      rw [List.map_cons] at hm ⊢
      rw [join_strv_branch t (rest.map PyItem.strv) (t :: rest) hm]
      simp

/-- Witness for C4 at the claim's example: the texts "Hello" and "world"
yield the transcript "Hello world" and segment count 2 in all three
shapes. -/
theorem normalize_shape_invariance_witness :
    joinSpace ["Hello".toList, "world".toList] = "Hello world".toList ∧
    join_text_from_payload (.obj (some (["Hello".toList, "world".toList].map some)) none none) =
      .ok ⟨ joinSpace ["Hello".toList, "world".toList], 2, none, none⟩ ∧
    join_text_from_payload
        (.pylist (["Hello".toList, "world".toList].map (fun t => PyItem.record (some t)))) =
      .ok ⟨ joinSpace ["Hello".toList, "world".toList], 2, none, none⟩ ∧
    join_text_from_payload (.pylist (["Hello".toList, "world".toList].map PyItem.strv)) =
      .ok ⟨ joinSpace ["Hello".toList, "world".toList], 2, none, none⟩ := by
  have h := normalize_shape_invariance ["Hello".toList, "world".toList] none none (by decide)
  exact ⟨ by decide, h.1, h.2.1, h.2.2⟩

/-! ## C5: segment counting and empty-text filtering -/

/-- C5 (amended): in every recognized shape `segments_count` is the total
number of snippets consumed, including ones with empty text; but only the
snippets-object and record shapes drop snippets whose text is exactly the
empty string from the join (whitespace-only texts are kept), and the
list-of-strings shape joins every element unfiltered. -/
theorem segment_count_counts_all_snippets (snips : List (Option Str)) (lang : Option Str)
    (gen : Option Bool) (ts : List Str) :
    join_text_from_payload (.obj (some snips) lang gen) =
      .ok ⟨ joinSpace ((snips.map (fun s => s.getD [])).filter (· ≠ [])),
        snips.length, lang, gen⟩ ∧
    join_text_from_payload (.pylist (ts.map (fun t => PyItem.record (some t)))) =
      .ok ⟨ joinSpace (ts.filter (· ≠ [])), ts.length, none, none⟩ ∧
    join_text_from_payload (.pylist (ts.map PyItem.strv)) =
      .ok ⟨ joinSpace ts, ts.length, none, none⟩ := by
  refine ⟨ rfl, ?_, ?_⟩
  · cases ts with
    | nil => exact rfl
    | cons t rest =>
      have hm := mapM_record_texts (t :: rest)
      rw [List.map_cons] at hm ⊢
      rw [join_record_branch t (rest.map (fun t => PyItem.record (some t))) (t :: rest) hm]
      simp
  · cases ts with
    | nil => exact rfl
    | cons t rest =>
      have hm := mapM_strv_texts (t :: rest)
      rw [List.map_cons] at hm ⊢
      rw [join_strv_branch t (rest.map PyItem.strv) (t :: rest) hm]
      simp

/-- Counterexample for C5 as stated: in the list-of-strings shape an
empty-text snippet is joined, not skipped (the claim predicts "a b", the
code yields "a  b" with two spaces), and in the record shape a
whitespace-only text — empty after trimming — is likewise not skipped (the
claim predicts "a", the code yields "a  "). -/
theorem segment_count_counts_all_snippets_counterexample :
    join_text_from_payload
        (.pylist [PyItem.strv "a".toList, PyItem.strv [], PyItem.strv "b".toList]) =
      .ok ⟨ "a  b".toList, 3, none, none⟩ ∧
    join_text_from_payload
        (.pylist [PyItem.record (some "a".toList), PyItem.record (some " ".toList)]) =
      .ok ⟨ "a  ".toList, 2, none, none⟩ ∧
    "a  b".toList ≠ "a b".toList ∧ "a  ".toList ≠ "a".toList := by
  decide

/-! ## C6: totality of the normalizer -/

/-- C6 (amended): on every payload that is not a heterogeneous list — any
snippets object, any homogeneous list, the empty list, and any
unrecognized value — the normalizer returns a result, and an empty or
unrecognized payload yields empty text and a zero segment count; a list
mixing dicts with non-dicts (or strings with non-strings) raises instead. -/
theorem normalize_total_on_homogeneous (p : Payload) (h : payloadOk p = true) :
    (∃ n, join_text_from_payload p = .ok n) ∧
    join_text_from_payload (.pylist []) = .ok ⟨[], 0, none, none⟩ ∧
    join_text_from_payload .other = .ok ⟨[], 0, none, none⟩ := by
  refine ⟨?_, rfl, rfl⟩
  cases p with
  | obj snips lang gen =>
    cases snips with
    | some l => exact ⟨_, rfl⟩
    | none => exact ⟨_, rfl⟩
  | other => exact ⟨_, rfl⟩
  | pylist items =>
    cases items with
    | nil => exact ⟨_, rfl⟩
    | cons i rest =>
      cases i with
      | other => exact ⟨_, rfl⟩
      | record t =>
        have hall : ∀ j ∈ PyItem.record t :: rest, ∃ u, j = PyItem.record u := by
          intro j hj
          rcases List.mem_cons.mp hj with hj | hj
          · exact ⟨t, hj⟩
          · have := (List.all_eq_true.mp h) j hj
            cases j with
            | record u => exact ⟨u, rfl⟩
            | strv s => simp at this
            | other => simp at this
        obtain ⟨ts, hts⟩ := mapM_dictGetText_exists _ hall
        exact ⟨_, join_record_branch t rest ts hts⟩
      | strv s =>
        have hall : ∀ j ∈ PyItem.strv s :: rest, ∃ u, j = PyItem.strv u := by
          intro j hj
          rcases List.mem_cons.mp hj with hj | hj
          · exact ⟨s, hj⟩
          · have := (List.all_eq_true.mp h) j hj
            cases j with
            | record u => simp at this
            | strv u => exact ⟨u, rfl⟩
            | other => simp at this
        obtain ⟨ts, hts⟩ := mapM_asPyStr_exists _ hall
        exact ⟨_, join_strv_branch s rest ts hts⟩

/-- Witness for C6 at a homogeneous record list. -/
theorem normalize_total_on_homogeneous_witness :
    (∃ n, join_text_from_payload
        (.pylist [PyItem.record (some "a".toList), PyItem.record none]) = .ok n) ∧
    join_text_from_payload (.pylist []) = .ok ⟨[], 0, none, none⟩ ∧
    join_text_from_payload .other = .ok ⟨[], 0, none, none⟩ :=
  normalize_total_on_homogeneous _ (by decide)

/-- Counterexample for C6 as stated: a list mixing a dict and a string makes
the source normalizer raise `AttributeError` (the string has no `.get`),
so the normalizer does not succeed on every payload value. -/
theorem normalize_total_counterexample :
    join_text_from_payload (.pylist [PyItem.record (some "a".toList), PyItem.strv "b".toList]) =
      .error ⟨ "AttributeError".toList, "object has no attribute get".toList⟩ := by
  decide

/-! ## Helper lemmas about the stable sort and the sort-key order -/

theorem mem_insertLe (le : α → α → Bool) (a x : α) (l : List α) :
    x ∈ insertLe le a l ↔ x = a ∨ x ∈ l := by
  induction l with
  | nil => simp [insertLe]
  | cons b bs ih =>
    by_cases h : le a b
    · simp [insertLe, h, List.mem_cons]
    · simp [insertLe, h, List.mem_cons, ih]
      tauto

theorem mem_stableSort (le : α → α → Bool) (l : List α) (x : α) :
    x ∈ stableSort le l ↔ x ∈ l := by
  induction l with
  | nil => simp [stableSort]
  | cons b bs ih =>
    simp [stableSort, mem_insertLe, ih, List.mem_cons]

theorem pairwise_insertLe (le : α → α → Bool)
    (htot : ∀ a b, le a b = true ∨ le b a = true)
    (htrans : ∀ a b c, le a b = true → le b c = true → le a c = true)
    (a : α) (l : List α) (h : l.Pairwise (fun x y => le x y = true)) :
    (insertLe le a l).Pairwise (fun x y => le x y = true) := by
  induction l with
  | nil => simp [insertLe]
  | cons b bs ih =>
    obtain ⟨hb, hbs⟩ := List.pairwise_cons.mp h
    by_cases hab : le a b
    · rw [insertLe, if_pos hab]
      refine List.pairwise_cons.mpr ⟨?_, h⟩
      intro y hy
      rcases List.mem_cons.mp hy with rfl | hy
      · exact hab
      · exact htrans a b y hab (hb y hy)
    · rw [insertLe, if_neg hab]
      refine List.pairwise_cons.mpr ⟨?_, ih hbs⟩
      intro y hy
      rcases (mem_insertLe le a y bs).mp hy with hy' | hy'
      · cases hy'
        rcases htot a b with h1 | h1
        · exact absurd h1 hab
        · exact h1
      · exact hb y hy'

theorem pairwise_stableSort (le : α → α → Bool)
    (htot : ∀ a b, le a b = true ∨ le b a = true)
    (htrans : ∀ a b c, le a b = true → le b c = true → le a c = true)
    (l : List α) :
    (stableSort le l).Pairwise (fun x y => le x y = true) := by
  induction l with
  | nil => simp [stableSort]
  | cons b bs ih => exact pairwise_insertLe le htot htrans b (stableSort le bs) ih

theorem stableSort_ne_nil (le : α → α → Bool) (l : List α) (h : l ≠ []) :
    stableSort le l ≠ [] := by
  cases l with
  | nil => exact absurd rfl h
  | cons x xs =>
    intro hb
    have hx : x ∈ stableSort le (x :: xs) :=
      (mem_stableSort le (x :: xs) x).mpr (List.mem_cons_self _ _)
    rw [hb] at hx
    cases hx

theorem head_stableSort_min (le : α → α → Bool)
    (htot : ∀ a b, le a b = true ∨ le b a = true)
    (htrans : ∀ a b c, le a b = true → le b c = true → le a c = true)
    (l : List α) (c : α) (rest : List α) (h : stableSort le l = c :: rest) :
    ∀ x ∈ l, le c x = true := by
  intro x hx
  have hx' : x ∈ c :: rest := by
    rw [← h]
    exact (mem_stableSort le l x).mpr hx
  rcases List.mem_cons.mp hx' with rfl | hx'
  · rcases htot x x with h1 | h1 <;> exact h1
  · have hp := pairwise_stableSort le htot htrans l
    rw [h] at hp
    exact (List.pairwise_cons.mp hp).1 x hx'

theorem char_toNat_inj {a b : Char} (h : a.toNat = b.toNat) : a = b := by
  have := congrArg Char.ofNat h
  simpa using this

theorem strLt_cons_iff (a b : Char) (xs ys : Str) :
    strLt (a :: xs) (b :: ys) = true ↔
      a.toNat < b.toNat ∨ (a = b ∧ strLt xs ys = true) := by
  by_cases h1 : a.toNat < b.toNat
  · simp [strLt, h1]
  · by_cases h2 : b.toNat < a.toNat
    · rw [show strLt (a :: xs) (b :: ys) = false by simp [strLt, h1, h2]]
      simp [h1]
      intro hab
      rw [hab] at h2
      exact absurd h2 (Nat.lt_irrefl _)
    · have hab : a = b := char_toNat_inj (Nat.le_antisymm (Nat.not_lt.mp h2) (Nat.not_lt.mp h1))
      rw [show strLt (a :: xs) (b :: ys) = strLt xs ys by simp [strLt, h1, h2]]
      simp [hab, h1]

theorem strLt_tri (s t : Str) : strLt s t = true ∨ s = t ∨ strLt t s = true := by
  induction s generalizing t with
  | nil =>
    cases t with
    | nil => exact Or.inr (Or.inl rfl)
    | cons b bs => exact Or.inl rfl
  | cons a xs ih =>
    cases t with
    | nil => exact Or.inr (Or.inr rfl)
    | cons b ys =>
      rcases Nat.lt_trichotomy a.toNat b.toNat with hab | hab | hab
      · exact Or.inl ((strLt_cons_iff a b xs ys).mpr (Or.inl hab))
      · have hA : a = b := char_toNat_inj hab
        subst hA
        rcases ih ys with h1 | h1 | h1
        · exact Or.inl ((strLt_cons_iff a a xs ys).mpr (Or.inr ⟨rfl, h1⟩))
        · exact Or.inr (Or.inl (by rw [h1]))
        · exact Or.inr (Or.inr ((strLt_cons_iff a a ys xs).mpr (Or.inr ⟨rfl, h1⟩)))
      · exact Or.inr (Or.inr ((strLt_cons_iff b a ys xs).mpr (Or.inl hab)))

theorem strLt_trans (s t u : Str) (h1 : strLt s t = true) (h2 : strLt t u = true) :
    strLt s u = true := by
  induction s generalizing t u with
  | nil =>
    cases u with
    | nil =>
      cases t with
      | nil => exact h1
      | cons b ys => simp [strLt] at h2
    | cons c zs => rfl
  | cons a xs ih =>
    cases t with
    | nil => simp [strLt] at h1
    | cons b ys =>
      cases u with
      | nil => simp [strLt] at h2
      | cons c zs =>
        rw [strLt_cons_iff] at h1 h2 ⊢
        rcases h1 with h1 | ⟨rfl, h1⟩
        · rcases h2 with h2 | ⟨rfl, h2⟩
          · exact Or.inl (Nat.lt_trans h1 h2)
          · exact Or.inl h1
        · rcases h2 with h2 | ⟨rfl, h2⟩
          · exact Or.inl h2
          · exact Or.inr ⟨rfl, ih ys zs h1 h2⟩

theorem keyLe_total (x y : Nat × Str) : keyLe x y = true ∨ keyLe y x = true := by
  rcases Nat.lt_trichotomy x.1 y.1 with h | h | h
  · left
    simp [keyLe, h]
  · rcases strLt_tri x.2 y.2 with hs | hs | hs
    · left
      simp [keyLe, h, hs]
    · left
      simp [keyLe, h, hs]
    · right
      simp [keyLe, h, hs]
  · right
    simp [keyLe, h]

theorem keyLe_trans (x y z : Nat × Str) (h1 : keyLe x y = true) (h2 : keyLe y z = true) :
    keyLe x z = true := by
  rcases Nat.lt_trichotomy x.1 y.1 with hxy | hxy | hxy
  · rcases Nat.lt_trichotomy y.1 z.1 with hyz | hyz | hyz
    · simp [keyLe, Nat.lt_trans hxy hyz]
    · simp [keyLe, hyz ▸ hxy]
    · simp [keyLe, hyz, Nat.lt_asymm hyz] at h2
  · rcases Nat.lt_trichotomy y.1 z.1 with hyz | hyz | hyz
    · simp [keyLe, hxy ▸ hyz]
    · have hxz : x.1 = z.1 := hxy.trans hyz
      simp only [keyLe, hxy, Nat.lt_irrefl, if_false] at h1
      simp only [keyLe, hyz, Nat.lt_irrefl, if_false] at h2
      simp only [keyLe, hxz, Nat.lt_irrefl, if_false]
      rcases (Bool.or_eq_true _ _).mp h1 with hs1 | hs1 <;>
        rcases (Bool.or_eq_true _ _).mp h2 with hs2 | hs2
      · exact (Bool.or_eq_true _ _).mpr (Or.inl (strLt_trans _ _ _ hs1 hs2))
      · have : y.2 = z.2 := by simpa using hs2
        exact (Bool.or_eq_true _ _).mpr (Or.inl (this ▸ hs1))
      · have : x.2 = y.2 := by simpa using hs1
        exact (Bool.or_eq_true _ _).mpr (Or.inl (this ▸ hs2))
      · have e1 : x.2 = y.2 := by simpa using hs1
        have e2 : y.2 = z.2 := by simpa using hs2
        simp [e1, e2]
    · simp [keyLe, hyz, Nat.lt_asymm hyz] at h2
  · simp [keyLe, hxy, Nat.lt_asymm hxy] at h1

theorem trackLe_total (a b : Track) : trackLe a b = true ∨ trackLe b a = true :=
  keyLe_total _ _

theorem trackLe_trans (a b c : Track) (h1 : trackLe a b = true) (h2 : trackLe b c = true) :
    trackLe a c = true :=
  keyLe_trans _ _ _ h1 h2

/-! ## C7: caption track selection -/

/-- C7 (amended): the proxied adapter's preference is hard-coded to English
(language codes starting with "en") rather than parameterized by a
preferred-language set; for every non-empty track list the selected track
is the head of the stable sort and minimizes the source's `priority` key
(authored English, then auto-generated English, then other authored, then
the rest, ties broken by language code ascending). -/
theorem track_selection_minimizes (ts : List Track) (h : ts ≠ []) :
    ∃ c rest, sortTracks ts = c :: rest ∧ c ∈ ts ∧
      ∀ t ∈ ts, keyLe (priority c) (priority t) = true := by
  obtain ⟨c, rest, hcr⟩ : ∃ c rest, sortTracks ts = c :: rest := by
    cases hs : sortTracks ts with
    | nil => exact absurd hs (stableSort_ne_nil _ _ h)
    | cons c rest => exact ⟨c, rest, rfl⟩
  refine ⟨c, rest, hcr, ?_, ?_⟩
  · have hc : c ∈ sortTracks ts := by
      rw [hcr]
      exact List.mem_cons_self _ _
    exact (mem_stableSort _ _ _).mp hc
  · exact head_stableSort_min trackLe trackLe_total trackLe_trans ts c rest hcr

/-- Witness for C7 at the claim's example: among the tracks fr-authored,
en-auto-generated and en-authored, the en-authored track is selected and
minimizes the sort key. -/
theorem track_selection_minimizes_witness :
    ([⟨ "fr".toList, [], none⟩, ⟨ "en".toList, "asr".toList, none⟩,
        ⟨ "en".toList, [], none⟩] ≠ ([] : List Track)) ∧
    (∃ c rest,
      sortTracks [⟨ "fr".toList, [], none⟩, ⟨ "en".toList, "asr".toList, none⟩,
          ⟨ "en".toList, [], none⟩] = c :: rest ∧
      c ∈ [⟨ "fr".toList, [], none⟩, ⟨ "en".toList, "asr".toList, none⟩,
          ⟨ "en".toList, [], none⟩] ∧
      ∀ t ∈ [⟨ "fr".toList, [], none⟩, ⟨ "en".toList, "asr".toList, none⟩,
          ⟨ "en".toList, [], none⟩], keyLe (priority c) (priority t) = true) ∧
    sortTracks [⟨ "fr".toList, [], none⟩, ⟨ "en".toList, "asr".toList, none⟩,
        ⟨ "en".toList, [], none⟩] =
      [⟨ "en".toList, [], none⟩, ⟨ "en".toList, "asr".toList, none⟩,
        ⟨ "fr".toList, [], none⟩] :=
  ⟨ by decide, track_selection_minimizes _ (by decide), by decide⟩

/-- Counterexample for C7 as stated: with preferred languages `["en"]` and
tracks de-authored and en-US-authored, the spec's membership-based sort key
makes both non-preferred and selects "de" by the language-code tiebreak,
but the code's `startswith("en")` test selects "en-US"; the adapter does
not minimize the claim's preferred-set key. -/
theorem track_selection_counterexample :
    (sortTracks [⟨ "de".toList, [], none⟩, ⟨ "en-US".toList, [], none⟩]).head? =
      some ⟨ "en-US".toList, [], none⟩ ∧
    chosen_spec ["en".toList] [⟨ "de".toList, [], none⟩, ⟨ "en-US".toList, [], none⟩] =
      some ⟨ "de".toList, [], none⟩ ∧
    (⟨ "en-US".toList, [], none⟩ : Track) ≠ ⟨ "de".toList, [], none⟩ := by
  decide

/-! ## C10: ownership enforcement in the video service -/

/-- C10: the video service enforces ownership: `get_video` returns the
stored record exactly when it exists and its `user_id` equals the
requester's; `delete_video` and `update_video` answer "Video not found"
when the record is missing and "Access denied" when it belongs to someone
else, and they reach the repository's delete/update (a `fromRepo` result)
only when the record exists and is owned by the requester. -/
theorem video_service_ownership (repo : VideoRepo) (video_id : Str) (user_id : Int)
    (updates : List (Str × Str)) :
    (∀ v, VideoService.get_video repo video_id user_id = some v ↔
      repo.get_video_by_id video_id = some v ∧ v.user_id = some user_id) ∧
    (repo.get_video_by_id video_id = none →
      VideoService.delete_video repo video_id user_id = .failure "Video not found".toList ∧
      VideoService.update_video repo video_id user_id updates =
        .failure "Video not found".toList) ∧
    (∀ v, repo.get_video_by_id video_id = some v → v.user_id ≠ some user_id →
      VideoService.delete_video repo video_id user_id = .failure "Access denied".toList ∧
      VideoService.update_video repo video_id user_id updates =
        .failure "Access denied".toList) ∧
    (∀ r, VideoService.delete_video repo video_id user_id = .fromRepo r →
      r = repo.deleteResult video_id ∧
      ∃ v, repo.get_video_by_id video_id = some v ∧ v.user_id = some user_id) ∧
    (∀ r, VideoService.update_video repo video_id user_id updates = .fromRepo r →
      r = repo.updateResult video_id updates ∧
      ∃ v, repo.get_video_by_id video_id = some v ∧ v.user_id = some user_id) := by
  refine ⟨?_, ?_, ?_, ?_, ?_⟩
  · intro v
    cases hv : repo.get_video_by_id video_id with
    | none => simp [VideoService.get_video, hv]
    | some w =>
      by_cases hw : w.user_id = some user_id
      · simp only [VideoService.get_video, hv, if_pos hw, Option.some_inj]
        constructor
        · intro he
          exact ⟨ by rw [he], by rw [← he]; exact hw⟩
        · intro he
          exact he.1
      · simp only [VideoService.get_video, hv, if_neg hw]
        constructor
        · intro he
          cases he
        · intro he
          have hwv : w = v := Option.some_inj.mp he.1
          subst hwv
          exact absurd he.2 hw
  · intro hnone
    constructor
    · simp [VideoService.delete_video, hnone]
    · simp [VideoService.update_video, hnone]
  · intro v hv hne
    constructor
    · simp [VideoService.delete_video, hv, hne]
    · simp [VideoService.update_video, hv, hne]
  · intro r hr
    cases hv : repo.get_video_by_id video_id with
    | none => simp [VideoService.delete_video, hv] at hr
    | some w =>
      by_cases hw : w.user_id = some user_id
      · have : VideoService.delete_video repo video_id user_id =
            .fromRepo (repo.deleteResult video_id) := by
          simp [VideoService.delete_video, hv, hw]
        rw [this] at hr
        exact ⟨ ServiceResult.fromRepo.inj hr.symm, w, rfl, hw⟩
      · have : VideoService.delete_video repo video_id user_id =
            .failure "Access denied".toList := by
          simp [VideoService.delete_video, hv, hw]
        rw [this] at hr
        cases hr
  · intro r hr
    cases hv : repo.get_video_by_id video_id with
    | none => simp [VideoService.update_video, hv] at hr
    | some w =>
      by_cases hw : w.user_id = some user_id
      · have : VideoService.update_video repo video_id user_id updates =
            .fromRepo (repo.updateResult video_id updates) := by
          simp [VideoService.update_video, hv, hw]
        rw [this] at hr
        exact ⟨ ServiceResult.fromRepo.inj hr.symm, w, rfl, hw⟩
      · have : VideoService.update_video repo video_id user_id updates =
            .failure "Access denied".toList := by
          simp [VideoService.update_video, hv, hw]
        rw [this] at hr
        cases hr

/-- Witness for C10 on a concrete two-video repository: user 1 reads their
own video, misses video "b" owned by user 2, and mutations on foreign or
missing videos fail without reaching the repository. -/
theorem video_service_ownership_witness :
    VideoService.get_video sampleRepo "a".toList 1 =
      some ⟨ some 1, [("title".toList, "first".toList)]⟩ ∧
    VideoService.get_video sampleRepo "b".toList 1 = none ∧
    VideoService.delete_video sampleRepo "c".toList 1 = .failure "Video not found".toList ∧
    VideoService.delete_video sampleRepo "b".toList 1 = .failure "Access denied".toList ∧
    VideoService.update_video sampleRepo "b".toList 1 [] = .failure "Access denied".toList := by
  have h1 := (video_service_ownership sampleRepo "a".toList 1 []).1
    ⟨ some 1, [("title".toList, "first".toList)]⟩
  have h2 := (video_service_ownership sampleRepo "c".toList 1 []).2.1 (by decide)
  have h3 := (video_service_ownership sampleRepo "b".toList 1 []).2.2.1
    ⟨ some 2, []⟩ (by decide) (by decide)
  refine ⟨h1.mpr ⟨ by decide, by decide⟩, ?_, h2.1, h3.1, h3.2⟩
  decide

/-! ## Helper lemmas about the orchestrator -/

theorem get_transcript_extract_error (env : FetchEnv) (url : Str) (e : PyErr)
    (h : extract_video_id url = .error e) :
    get_transcript env url = .failure (errMessage e) e.name none := by
  simp [get_transcript, h]

theorem get_transcript_direct_error (env : FetchEnv) (url vid : Str) (e : PyErr)
    (hvid : extract_video_id url = .ok vid)
    (hscr : fetch_transcript_via_scraperapi env.use_scraper env.scraper vid = none)
    (hdir : env.directFetch vid = .error e) :
    get_transcript env url = .failure (errMessage e) e.name (some vid) := by
  cases hu : env.use_scraper with
  | true =>
    rw [hu] at hscr
    simp [get_transcript, hvid, hu, hscr, hdir]
  | false =>
    simp [get_transcript, hvid, hu, hdir]

theorem get_transcript_direct_ok (env : FetchEnv) (url vid : Str) (payload : Payload)
    (n : Normalized) (hvid : extract_video_id url = .ok vid)
    (hscr : fetch_transcript_via_scraperapi env.use_scraper env.scraper vid = none)
    (hdir : env.directFetch vid = .ok payload)
    (hn : join_text_from_payload payload = .ok n) :
    get_transcript env url =
      .success vid n.transcript n.segments_count n.language n.is_generated := by
  cases hu : env.use_scraper with
  | true =>
    rw [hu] at hscr
    simp [get_transcript, hvid, hu, hscr, hdir, hn]
  | false =>
    simp [get_transcript, hvid, hu, hdir, hn]

theorem get_transcript_scraper_ok (env : FetchEnv) (url vid : Str) (segs : List PyItem)
    (n : Normalized) (hvid : extract_video_id url = .ok vid)
    (hu : env.use_scraper = true)
    (hscr : fetch_transcript_via_scraperapi env.use_scraper env.scraper vid = some segs)
    (hn : join_text_from_payload (.pylist segs) = .ok n) :
    get_transcript env url =
      .success vid n.transcript n.segments_count n.language n.is_generated := by
  rw [hu] at hscr
  simp [get_transcript, hvid, hu, hscr, hn]

/-! ## C1: the orchestrator always returns an envelope -/

/-- C1: `get_transcript` is total: for every environment and URL it returns
either a success envelope carrying video id, transcript, segment count,
language and generation flag, or a failure envelope carrying an error kind
and message; in particular, when extraction succeeds but both adapters
fail the result is the failure envelope of the direct error, and when
extraction fails it is the failure envelope of the extraction error. -/
theorem get_transcript_never_raises (env : FetchEnv) (url : Str) :
    ((∃ vid tr n lang gen, get_transcript env url = .success vid tr n lang gen) ∨
      (∃ err et vid, get_transcript env url = .failure err et vid)) ∧
    (∀ vid e, extract_video_id url = .ok vid →
      fetch_transcript_via_scraperapi env.use_scraper env.scraper vid = none →
      env.directFetch vid = .error e →
      get_transcript env url = .failure (errMessage e) e.name (some vid)) ∧
    (∀ e, extract_video_id url = .error e →
      get_transcript env url = .failure (errMessage e) e.name none) := by
  refine ⟨?_, fun vid e h1 h2 h3 => get_transcript_direct_error env url vid e h1 h2 h3,
    fun e h => get_transcript_extract_error env url e h⟩
  cases h : get_transcript env url with
  | success a b c d f => exact Or.inl ⟨a, b, c, d, f, rfl⟩
  | failure a b c => exact Or.inr ⟨a, b, c, rfl⟩

/-- Witness for C1: with the scraper disabled and the direct call raising,
the orchestrator returns the failure envelope rather than propagating the
exception. -/
theorem get_transcript_never_raises_witness :
    get_transcript envC9 "https://www.youtube.com/watch?v=abc".toList =
      .failure "transcript not found".toList "ValueError".toList (some "abc".toList) :=
  (get_transcript_never_raises envC9 "https://www.youtube.com/watch?v=abc".toList).2.1
    "abc".toList ⟨ "ValueError".toList, "transcript not found".toList⟩
    (by decide) (by decide) (by decide)

/-! ## C9: error classification on terminal failure -/

/-- C9 (amended): on a terminal failure the code performs no message
inspection at all: the returned `error_type` is the raised exception's
class name and `error` is the raw message (or the class name when the
message is empty); no substring-based taxonomy mapping exists in
`get_transcript`. -/
theorem error_type_is_exception_class (env : FetchEnv) (url vid : Str) (e : PyErr)
    (hvid : extract_video_id url = .ok vid)
    (hscr : fetch_transcript_via_scraperapi env.use_scraper env.scraper vid = none)
    (hdir : env.directFetch vid = .error e) :
    get_transcript env url = .failure (errMessage e) e.name (some vid) :=
  get_transcript_direct_error env url vid e hvid hscr hdir

/-- Witness for C9 (amended) at a concrete environment. -/
theorem error_type_is_exception_class_witness :
    get_transcript envC9 "https://www.youtube.com/watch?v=xyz".toList =
      .failure "transcript not found".toList "ValueError".toList (some "xyz".toList) :=
  error_type_is_exception_class envC9 "https://www.youtube.com/watch?v=xyz".toList
    "xyz".toList ⟨ "ValueError".toList, "transcript not found".toList⟩
    (by decide) (by decide) (by decide)

/-- Counterexample for C9 as stated: a `ValueError` whose message mentions
"not found" would be classified `NoTranscriptFound` by the claim's
case-insensitive substring inspection, but the code returns the raw class
name "ValueError" as the error kind. -/
theorem error_kind_not_classified_counterexample :
    get_transcript envC9 "https://www.youtube.com/watch?v=abc".toList =
      .failure "transcript not found".toList "ValueError".toList (some "abc".toList) ∧
    classify_spec "transcript not found".toList = "NoTranscriptFound".toList ∧
    "ValueError".toList ≠ "NoTranscriptFound".toList := by
  decide

/-! ## C8: adapter ordering and fallback -/

theorem scraper_some_characterization (e : ScraperEnv) (v : Str) (s : List PyItem)
    (h : fetch_transcript_via_scraperapi true e v = some s) :
    ∃ html m pj c rest turl txt raws,
      e.fetch (watchUrl v) = .ok html ∧ pyStrip html ≠ [] ∧
      e.search html = some m ∧ e.jsonLoads m = .ok pj ∧ pj.captionTracks ≠ [] ∧
      sortTracks pj.captionTracks = c :: rest ∧ c.baseUrl = some turl ∧
      e.fetch turl = .ok txt ∧ pyStrip txt ≠ [] ∧ e.xmlParse txt = .ok raws ∧
      (raws.map (fun r => pyStrip (replaceNewlines (e.unescape r)))).filter (· ≠ []) ≠ [] ∧
      s = ((raws.map (fun r => pyStrip (replaceNewlines (e.unescape r)))).filter
        (· ≠ [])).map (fun t => PyItem.record (some t)) := by
  unfold fetch_transcript_via_scraperapi at h
  rw [if_neg (by simp)] at h
  split at h
  · simp at h
  · rename_i html hfetch
    split at h
    · simp at h
    · rename_i hhtml
      split at h
      · simp at h
      · rename_i m hsearch
        split at h
        · simp at h
        · rename_i pj hjson
          split at h
          · simp at h
          · rename_i htracks
            split at h
            · simp at h
            · rename_i c rest hsort
              split at h
              · simp at h
              · rename_i turl hbase
                split at h
                · simp at h
                · rename_i txt hfetch2
                  split at h
                  · simp at h
                  · rename_i htxt
                    split at h
                    · simp at h
                    · rename_i raws hxml
                      dsimp only at h
                      split at h
                      · simp at h
                      · rename_i hsegs
                        exact ⟨html, m, pj, c, rest, turl, txt, raws, hfetch, hhtml,
                          hsearch, hjson, htracks, hsort, hbase, hfetch2, htxt, hxml,
                          hsegs, (Option.some_inj.mp h).symm⟩

/-- C8 (amended): the scraper adapter's soft failures — transport errors,
empty responses, a missing JSON blob, an empty track list, a missing
caption URL, unparsable XML — all yield `None` instead of raising, which
makes the orchestrator fall back to the direct adapter; when the direct
adapter then succeeds with a payload the normalizer accepts, the result is
a Success built from that payload (if the payload is a heterogeneous list
the normalizer's own exception becomes the failure envelope instead); and
when the configured scraper succeeds, the success envelope is built from
the scraper's segments regardless of the direct adapter. -/
theorem scraper_fallback (env : FetchEnv) (url vid : Str) :
    ((∀ u, ∃ err, env.scraper.fetch u = .error err) →
      fetch_transcript_via_scraperapi true env.scraper vid = none) ∧
    ((∀ u s', env.scraper.fetch u = .ok s' → pyStrip s' = []) →
      fetch_transcript_via_scraperapi true env.scraper vid = none) ∧
    ((∀ t, env.scraper.search t = none) →
      fetch_transcript_via_scraperapi true env.scraper vid = none) ∧
    ((∀ t pj, env.scraper.jsonLoads t = .ok pj → pj.captionTracks = []) →
      fetch_transcript_via_scraperapi true env.scraper vid = none) ∧
    ((∀ t pj c rest, env.scraper.jsonLoads t = .ok pj →
        sortTracks pj.captionTracks = c :: rest → c.baseUrl = none) →
      fetch_transcript_via_scraperapi true env.scraper vid = none) ∧
    ((∀ t, ∃ err, env.scraper.xmlParse t = .error err) →
      fetch_transcript_via_scraperapi true env.scraper vid = none) ∧
    (env.use_scraper = true → extract_video_id url = .ok vid →
      fetch_transcript_via_scraperapi env.use_scraper env.scraper vid = none →
      ∀ payload n, env.directFetch vid = .ok payload →
        join_text_from_payload payload = .ok n →
        get_transcript env url =
          .success vid n.transcript n.segments_count n.language n.is_generated) ∧
    (env.use_scraper = true → extract_video_id url = .ok vid →
      ∀ segs n, fetch_transcript_via_scraperapi env.use_scraper env.scraper vid = some segs →
        join_text_from_payload (.pylist segs) = .ok n →
        get_transcript env url =
          .success vid n.transcript n.segments_count n.language n.is_generated) := by
  have char := scraper_some_characterization env.scraper vid
  refine ⟨?_, ?_, ?_, ?_, ?_, ?_, ?_, ?_⟩
  · intro hyp
    cases hs : fetch_transcript_via_scraperapi true env.scraper vid with
    | none => rfl
    | some s =>
      obtain ⟨html, m, pj, c, rest, turl, txt, raws, hfetch, -, -, -, -, -, -, -, -, -, -, -⟩ :=
        char s hs
      obtain ⟨err, herr⟩ := hyp (watchUrl vid)
      rw [herr] at hfetch
      cases hfetch
  · intro hyp
    cases hs : fetch_transcript_via_scraperapi true env.scraper vid with
    | none => rfl
    | some s =>
      obtain ⟨html, m, pj, c, rest, turl, txt, raws, hfetch, hhtml, -, -, -, -, -, -, -, -,
        -, -⟩ := char s hs
      exact absurd (hyp (watchUrl vid) html hfetch) hhtml
  · intro hyp
    cases hs : fetch_transcript_via_scraperapi true env.scraper vid with
    | none => rfl
    | some s =>
      obtain ⟨html, m, pj, c, rest, turl, txt, raws, -, -, hsearch, -, -, -, -, -, -, -, -,
        -⟩ := char s hs
      rw [hyp html] at hsearch
      cases hsearch
  · intro hyp
    cases hs : fetch_transcript_via_scraperapi true env.scraper vid with
    | none => rfl
    | some s =>
      obtain ⟨html, m, pj, c, rest, turl, txt, raws, -, -, -, hjson, htracks, -, -, -, -, -,
        -, -⟩ := char s hs
      exact absurd (hyp m pj hjson) htracks
  · intro hyp
    cases hs : fetch_transcript_via_scraperapi true env.scraper vid with
    | none => rfl
    | some s =>
      obtain ⟨html, m, pj, c, rest, turl, txt, raws, -, -, -, hjson, -, hsort, hbase, -, -,
        -, -, -⟩ := char s hs
      rw [hyp m pj c rest hjson hsort] at hbase
      cases hbase
  · intro hyp
    cases hs : fetch_transcript_via_scraperapi true env.scraper vid with
    | none => rfl
    | some s =>
      obtain ⟨html, m, pj, c, rest, turl, txt, raws, -, -, -, -, -, -, -, -, -, hxml, -,
        -⟩ := char s hs
      obtain ⟨err, herr⟩ := hyp txt
      rw [herr] at hxml
      cases hxml
  · intro hu hvid hscr payload n hdir hn
    exact get_transcript_direct_ok env url vid payload n hvid hscr hdir hn
  · intro hu hvid segs n hscr hn
    exact get_transcript_scraper_ok env url vid segs n hvid hu hscr hn

/-- Witness for C8: with the scraper soft-failing (no JSON blob in the
page), the direct adapter's two-snippet payload becomes the success
envelope; and with the scraper fully succeeding, its segments become the
success envelope even though the direct call would be blocked. -/
theorem scraper_fallback_witness :
    get_transcript envFallback "https://www.youtube.com/watch?v=abc".toList =
      .success "abc".toList "Hi there".toList 2 none none ∧
    get_transcript envScrapeOk "https://www.youtube.com/watch?v=abc".toList =
      .success "abc".toList "Hi there".toList 2 none none := by
  constructor
  · exact (scraper_fallback envFallback "https://www.youtube.com/watch?v=abc".toList
      "abc".toList).2.2.2.2.2.2.1 rfl (by decide) (by decide)
      (.pylist [PyItem.record (some "Hi".toList), PyItem.record (some "there".toList)])
      ⟨ "Hi there".toList, 2, none, none⟩ (by decide) (by decide)
  · exact (scraper_fallback envScrapeOk "https://www.youtube.com/watch?v=abc".toList
      "abc".toList).2.2.2.2.2.2.2 rfl (by decide)
      [PyItem.record (some "Hi".toList), PyItem.record (some "there".toList)]
      ⟨ "Hi there".toList, 2, none, none⟩ (by decide) (by decide)

/-- Counterexample for C8 as stated: the scraper soft-fails (no JSON blob)
and the direct adapter succeeds, yet the overall result is a Failure, not
a Success, because the direct payload is a heterogeneous list that makes
the normalizer raise. -/
theorem scraper_fallback_counterexample :
    fetch_transcript_via_scraperapi true envMixed.scraper "abc".toList = none ∧
    envMixed.directFetch "abc".toList =
      .ok (.pylist [PyItem.record (some "Hi".toList), PyItem.strv "there".toList]) ∧
    get_transcript envMixed "https://www.youtube.com/watch?v=abc".toList =
      .failure "object has no attribute get".toList "AttributeError".toList
        (some "abc".toList) := by
  decide

/-! ## C2 and C3: URL identifier extraction -/

theorem listBeg_iff (pat : Str) : ∀ s, listBeg pat s = true ↔ ∃ w, s = pat ++ w := by
  induction pat with
  | nil =>
    intro s
    simp [listBeg]
  | cons p ps ih =>
    intro s
    cases s with
    | nil => simp [listBeg]
    | cons c cs =>
      rw [show listBeg (p :: ps) (c :: cs) = (p == c && listBeg ps cs) from rfl]
      constructor
      · intro h
        obtain ⟨h1, h2⟩ := (Bool.and_eq_true _ _).mp h
        obtain ⟨w, hw⟩ := (ih cs).mp h2
        exact ⟨w, by rw [hw, beq_iff_eq.mp h1]; rfl⟩
      · rintro ⟨w, hw⟩
        injection hw with hc hcs
        rw [Bool.and_eq_true _ _]
        exact ⟨ beq_iff_eq.mpr hc.symm, (ih cs).mpr ⟨w, hcs⟩⟩

theorem listOccurs_iff (pat s : Str) : listOccurs pat s = true ↔ ∃ u w, s = u ++ pat ++ w := by
  induction s with
  | nil =>
    rw [listOccurs, listBeg_iff]
    constructor
    · rintro ⟨w, hw⟩
      exact ⟨[], w, hw⟩
    · rintro ⟨u, w, hw⟩
      obtain ⟨h1, h2⟩ := List.append_eq_nil.mp hw.symm
      obtain ⟨h3, h4⟩ := List.append_eq_nil.mp h1
      exact ⟨[], by rw [h4]; rfl⟩
  | cons c cs ih =>
    rw [listOccurs, Bool.or_eq_true, listBeg_iff, ih]
    constructor
    · rintro (⟨w, hw⟩ | ⟨u, w, hw⟩)
      · exact ⟨[], w, hw⟩
      · exact ⟨c :: u, w, by rw [hw]; rfl⟩
    · rintro ⟨u, w, hw⟩
      cases u with
      | nil => exact Or.inl ⟨w, by simpa using hw⟩
      | cons x u' =>
        injection hw with h1 h2
        exact Or.inr ⟨u', w, h2⟩

theorem splitFirst_single_none (c : Char) (s : Str) (h : c ∉ s) : splitFirst [c] s = none := by
  induction s with
  | nil => rfl
  | cons x xs ih =>
    have hcx : ¬c = x := fun he => h (he ▸ List.mem_cons_self x xs)
    rw [splitFirst, if_neg (by simp [listBeg, hcx]),
      ih (fun hm => h (List.mem_cons_of_mem _ hm))]

theorem splitFirst_single_left (c : Char) (a b : Str) (h : c ∉ a) :
    splitFirst [c] (a ++ c :: b) = some (a, b) := by
  induction a with
  | nil =>
    rw [List.nil_append, splitFirst, if_pos (by simp [listBeg])]
    rfl
  | cons x xs ih =>
    have hcx : ¬c = x := fun he => h (he ▸ List.mem_cons_self x xs)
    rw [List.cons_append, splitFirst, if_neg (by simp [listBeg, hcx]),
      ih (fun hm => h (List.mem_cons_of_mem _ hm))]

theorem splitFirst_append_some (c : Char) (a b : Str) :
    ∀ p q, splitFirst [c] a = some (p, q) → splitFirst [c] (a ++ b) = some (p, q ++ b) := by
  induction a with
  | nil =>
    intro p q h
    simp [splitFirst] at h
  | cons x xs ih =>
    intro p q h
    by_cases hcx : (c == x) = true
    · have hb : listBeg [c] (x :: xs) = true := by simp [listBeg, hcx]
      rw [splitFirst, if_pos hb] at h
      injection h with h'
      injection h' with hp hq
      rw [List.cons_append, splitFirst,
        if_pos (show listBeg [c] (x :: (xs ++ b)) = true by simp [listBeg, hcx])]
      rw [← hp, ← hq]
      rfl
    · have hb : ¬listBeg [c] (x :: xs) = true := by simp [listBeg, hcx]
      rw [splitFirst, if_neg hb] at h
      cases hs : splitFirst [c] xs with
      | none =>
        rw [hs] at h
        exact absurd h (by simp)
      | some pr =>
        obtain ⟨p', q'⟩ := pr
        rw [hs] at h
        injection h with h'
        injection h' with hp hq
        rw [List.cons_append, splitFirst,
          if_neg (show ¬listBeg [c] (x :: (xs ++ b)) = true by simp [listBeg, hcx]),
          ih p' q' hs]
        rw [← hp, ← hq]

theorem goodStr_not_mem (c : Char) (s : Str) (h : goodStr s = true) (hc : qchar c = false) :
    c ∉ s :=
  fun hm => absurd (List.all_eq_true.mp h _ hm) (by simp [hc])

theorem queryChar_renderPair (p : Str × Str) (h1 : goodStr p.1 = true)
    (h2 : goodStr p.2 = true) : ∀ c ∈ renderPair p, queryChar c = true := by
  intro c hc
  rcases List.mem_append.mp hc with hc | hc
  · have := List.all_eq_true.mp h1 c hc
    simp [queryChar, this]
  · rcases List.mem_cons.mp hc with rfl | hc
    · simp [queryChar]
    · have := List.all_eq_true.mp h2 c hc
      simp [queryChar, this]

theorem amp_not_mem_renderPair (p : Str × Str) (h1 : goodStr p.1 = true)
    (h2 : goodStr p.2 = true) : '&' ∉ renderPair p := by
  intro hm
  rcases List.mem_append.mp hm with hm | hm
  · exact absurd (List.all_eq_true.mp h1 _ hm) (by decide)
  · rcases List.mem_cons.mp hm with he | hm
    · exact absurd he (by decide)
    · exact absurd (List.all_eq_true.mp h2 _ hm) (by decide)

theorem queryChar_joinAmp (L : List Str) (h : ∀ f ∈ L, ∀ c ∈ f, queryChar c = true) :
    ∀ c ∈ joinAmp L, queryChar c = true := by
  induction L with
  | nil =>
    intro c hc
    simp [joinAmp] at hc
  | cons f rest ih =>
    cases rest with
    | nil =>
      intro c hc
      exact h f (List.mem_cons_self _ _) c (by simpa [joinAmp] using hc)
    | cons g rest' =>
      intro c hc
      rw [show joinAmp (f :: g :: rest') = f ++ '&' :: joinAmp (g :: rest') from rfl] at hc
      rcases List.mem_append.mp hc with hc | hc
      · exact h f (List.mem_cons_self _ _) c hc
      · rcases List.mem_cons.mp hc with rfl | hc
        · simp [queryChar]
        · exact ih (fun f' hf' => h f' (List.mem_cons_of_mem _ hf')) c hc

theorem dropWhile_append_of_all (p : Char → Bool) (a b : Str) (h : ∀ c ∈ a, p c = true) :
    (a ++ b).dropWhile p = b.dropWhile p := by
  induction a with
  | nil => rfl
  | cons x xs ih =>
    rw [List.cons_append, List.dropWhile_cons, if_pos (h x (List.mem_cons_self _ _)),
      ih (fun c hc => h c (List.mem_cons_of_mem _ hc))]

theorem joinAmp_mem_infix (L : List Str) (f : Str) (h : f ∈ L) :
    ∃ u w, joinAmp L = u ++ f ++ w := by
  induction L with
  | nil => cases h
  | cons g rest ih =>
    rcases List.mem_cons.mp h with rfl | h
    · cases rest with
      | nil => exact ⟨[], [], by simp [joinAmp]⟩
      | cons g' rest' =>
        exact ⟨[], '&' :: joinAmp (g' :: rest'), by
          rw [show joinAmp (f :: g' :: rest') = f ++ '&' :: joinAmp (g' :: rest') from rfl]
          simp⟩
    · cases rest with
      | nil => cases h
      | cons g' rest' =>
        obtain ⟨u, w, hw⟩ := ih h
        refine ⟨g ++ '&' :: u, w, ?_⟩
        rw [show joinAmp (g :: g' :: rest') = g ++ '&' :: joinAmp (g' :: rest') from rfl, hw]
        simp

theorem splitOn_joinAmp (L : List Str) (hne : L ≠ []) (h : ∀ f ∈ L, '&' ∉ f) :
    (joinAmp L).splitOn '&' = L := by
  induction L with
  | nil => exact absurd rfl hne
  | cons f rest ih =>
    cases rest with
    | nil =>
      show (joinAmp [f]).splitOn '&' = [f]
      rw [show joinAmp [f] = f from rfl, List.splitOn]
      exact List.splitOnP_eq_single _ _ (fun x hx => by
        simp only [beq_iff_eq]
        exact fun he => h f (List.mem_cons_self _ _) (he ▸ hx))
    | cons g rest' =>
      rw [show joinAmp (f :: g :: rest') = f ++ '&' :: joinAmp (g :: rest') from rfl,
        List.splitOn,
        List.splitOnP_first (· == '&') f (fun x hx => by
          simp only [beq_iff_eq]
          exact fun he => h f (List.mem_cons_self _ _) (he ▸ hx)) '&' (by simp)
          (joinAmp (g :: rest'))]
      rw [show List.splitOnP (· == '&') (joinAmp (g :: rest')) =
        (joinAmp (g :: rest')).splitOn '&' from rfl]
      rw [ih (by simp) (fun f' hf' => h f' (List.mem_cons_of_mem _ hf'))]

theorem urlQuery_watchURL (q : Str) (hq : ∀ c ∈ q, queryChar c = true) :
    urlQuery (watchStem ++ q) = q := by
  have h1 : stripScheme (watchStem ++ q) = "//www.youtube.com/watch?".toList ++ q := by
    have hsf := splitFirst_append_some ':' watchStem q "https".toList
      "//www.youtube.com/watch?".toList (by decide)
    simp only [stripScheme, hsf]
    rw [if_pos (by decide)]
  have h2 : stripNetloc ("//www.youtube.com/watch?".toList ++ q) = "/watch?".toList ++ q := by
    rw [show "//www.youtube.com/watch?".toList ++ q =
      '/' :: '/' :: ("www.youtube.com".toList ++ ('/' :: ("watch?".toList ++ q))) from rfl]
    simp only [stripNetloc]
    rw [dropWhile_append_of_all _ _ _ (by decide), List.dropWhile_cons, if_neg (by decide)]
    rfl
  have h3 : dropFrag ("/watch?".toList ++ q) = "/watch?".toList ++ q := by
    have hn : splitFirst ['#'] ("/watch?".toList ++ q) = none := by
      apply splitFirst_single_none
      intro hm
      rcases List.mem_append.mp hm with hm | hm
      · revert hm
        decide
      · exact absurd (hq _ hm) (by decide)
    simp only [dropFrag, hn]
  have h4 : splitQ ("/watch?".toList ++ q) = ( "/watch".toList, q) := by
    have hs : splitFirst ['?'] ("/watch".toList ++ '?' :: q) = some ( "/watch".toList, q) :=
      splitFirst_single_left '?' _ _ (by decide)
    rw [show "/watch?".toList ++ q = "/watch".toList ++ '?' :: q from rfl]
    simp only [splitQ, hs]
  rw [urlQuery, h1, h2, h3, h4]

theorem parseField_renderPair (p : Str × Str) (h : '=' ∉ p.1) :
    parseField (renderPair p) = if p.2 = [] then none else some p := by
  have hs : splitFirst ['='] (p.1 ++ '=' :: p.2) = some (p.1, p.2) :=
    splitFirst_single_left '=' _ _ h
  rw [show renderPair p = p.1 ++ '=' :: p.2 from rfl]
  simp only [parseField, hs]

theorem firstParam_watch (l1 l2 : List (Str × Str)) (vid : Str)
    (hgood : ∀ p ∈ l1 ++ (⟨['v'], vid⟩ : Str × Str) :: l2,
      goodStr p.1 = true ∧ goodStr p.2 = true)
    (hl1 : ∀ p ∈ l1, p.1 ≠ ['v'])
    (hid : vid ≠ []) :
    firstParam ['v']
      (joinAmp ((l1 ++ (⟨['v'], vid⟩ : Str × Str) :: l2).map renderPair)) = some vid := by
  have hsplit : (joinAmp ((l1 ++ (⟨['v'], vid⟩ : Str × Str) :: l2).map renderPair)).splitOn '&' =
      (l1 ++ (⟨['v'], vid⟩ : Str × Str) :: l2).map renderPair := by
    apply splitOn_joinAmp
    · simp
    · intro f hf
      obtain ⟨p, hp, rfl⟩ := List.mem_map.mp hf
      exact amp_not_mem_renderPair p (hgood p hp).1 (hgood p hp).2
  have hfields : parseQsl
      (joinAmp ((l1 ++ (⟨['v'], vid⟩ : Str × Str) :: l2).map renderPair)) =
      (l1 ++ (⟨['v'], vid⟩ : Str × Str) :: l2).filterMap
        (fun p => if p.2 = [] then none else some p) := by
    rw [parseQsl, hsplit, List.filterMap_map]
    apply List.filterMap_congr
    intro p hp
    exact parseField_renderPair p
      (goodStr_not_mem '=' p.1 (hgood p hp).1 (by decide))
  have hcons : List.filterMap (fun p : Str × Str => if p.2 = [] then none else some p)
      ((⟨['v'], vid⟩ : Str × Str) :: l2) =
      (⟨['v'], vid⟩ : Str × Str) ::
        List.filterMap (fun p => if p.2 = [] then none else some p) l2 :=
    List.filterMap_cons_some (by simp [hid])
  rw [firstParam, hfields, List.filterMap_append, hcons, List.find?_append]
  have hnone : List.find? (fun p => p.1 == ['v'])
      (l1.filterMap (fun p => if p.2 = [] then none else some p)) = none := by
    rw [List.find?_eq_none]
    intro x hx
    obtain ⟨a, ha, hax⟩ := List.mem_filterMap.mp hx
    have hxa : x = a := by
      by_cases h2 : a.2 = []
      · simp [h2] at hax
      · simp [h2] at hax
        exact hax.symm
    simp only [beq_iff_eq]
    rw [hxa]
    exact hl1 a ha
  rw [hnone, Option.none_or, List.find?_cons_of_pos _ (by simp)]
  rfl

theorem take_stem (q : Str) : (watchStem ++ q).take 30 = watchStem := by
  rw [List.take_append_eq_append_take, List.take_of_length_le (by decide),
    show (30 - watchStem.length) = 0 from by decide, List.take_zero, List.append_nil]

theorem drop_stem (q : Str) : (watchStem ++ q).drop 30 = q := by
  rw [List.drop_append_eq_append_drop, List.drop_eq_nil_of_le (by decide),
    show (30 - watchStem.length) = 0 from by decide, List.drop_zero, List.nil_append]

theorem no_short_pattern (q : Str) (hq : ∀ c ∈ q, queryChar c = true) :
    listOccurs "youtu.be/".toList (watchStem ++ q) = false := by
  by_contra hocc
  have hocc' : listOccurs "youtu.be/".toList (watchStem ++ q) = true := by
    cases hx : listOccurs "youtu.be/".toList (watchStem ++ q) with
    | true => rfl
    | false => exact absurd hx hocc
  obtain ⟨u, w, hw⟩ := (listOccurs_iff _ _).mp hocc'
  have hulen : u.length + 9 ≤ 30 ∨ 30 ≤ u.length ∨
      (u.length < 30 ∧ 30 < u.length + 9) := by omega
  rcases hulen with hcase | hcase | ⟨hc1, hc2⟩
  · have htake : watchStem = (u ++ "youtu.be/".toList) ++
        w.take (30 - (u.length + 9)) := by
      have h30 := take_stem q
      rw [hw, List.take_append_eq_append_take,
        List.take_of_length_le (by simp; omega),
        show (u ++ "youtu.be/".toList).length = u.length + 9 by simp] at h30
      exact h30.symm
    have : listOccurs "youtu.be/".toList watchStem = true := by
      apply (listOccurs_iff _ _).mpr
      exact ⟨u, w.take (30 - (u.length + 9)), by rw [htake]⟩
    revert this
    decide
  · have hdrop : q = (u.drop 30 ++ "youtu.be/".toList) ++ w := by
      have h30 := drop_stem q
      rw [hw, List.drop_append_eq_append_drop,
        show (u ++ "youtu.be/".toList).length = u.length + 9 by simp,
        show (30 - (u.length + 9)) = 0 from by omega, List.drop_zero,
        List.drop_append_eq_append_drop,
        show (30 - u.length) = 0 from by omega, List.drop_zero] at h30
      exact h30.symm
    have hdot : '.' ∈ q := by
      rw [hdrop]
      exact List.mem_append_left _ (List.mem_append_right _ (by decide))
    exact absurd (hq '.' hdot) (by decide)
  · have htake : watchStem = u ++ ("youtu.be/".toList).take (30 - u.length) := by
      have h30 := take_stem q
      rw [hw, List.take_append_eq_append_take, List.take_append_eq_append_take,
        List.take_of_length_le (by omega),
        show (30 - (u ++ "youtu.be/".toList).length) = 0 from by simp; omega,
        List.take_zero, List.append_nil] at h30
      exact h30.symm
    have htpne : ("youtu.be/".toList).take (30 - u.length) ≠ [] := by
      intro he
      have := congrArg List.length he
      rw [List.length_take] at this
      simp at this
      omega
    have hlast : watchStem.getLast? = some '?' := by decide
    rw [htake, List.getLast?_append_of_ne_nil _ htpne] at hlast
    have hmem : '?' ∈ ("youtu.be/".toList).take (30 - u.length) :=
      List.mem_of_mem_getLast? hlast
    have : '?' ∈ "youtu.be/".toList := List.take_subset _ _ hmem
    revert this
    decide

theorem has_v_eq (ps l1 l2 : List (Str × Str)) (vid : Str)
    (hps : ps = l1 ++ (⟨['v'], vid⟩ : Str × Str) :: l2) :
    listOccurs ['v', '='] (watchStem ++ joinAmp (ps.map renderPair)) = true := by
  apply (listOccurs_iff _ _).mpr
  have hmem : renderPair (⟨['v'], vid⟩ : Str × Str) ∈ ps.map renderPair :=
    List.mem_map_of_mem _ (by
      rw [hps]
      exact List.mem_append_right _ (List.mem_cons_self _ _))
  obtain ⟨u, w, hw⟩ := joinAmp_mem_infix _ _ hmem
  refine ⟨watchStem ++ u, vid ++ w, ?_⟩
  rw [hw, show renderPair (⟨['v'], vid⟩ : Str × Str) = ['v', '='] ++ vid from rfl]
  simp

/-- C2: for every URL that trims to a canonical watch URL whose query
pairs are drawn from the query charset and contain the parameter `v` with
non-empty value `vid` (first occurrence), `extract_video_id` returns
`vid`, regardless of the other query parameters or their order, the input
being trimmed of surrounding whitespace first. -/
theorem extract_canonical_watch (url vid : Str) (ps l1 l2 : List (Str × Str))
    (hurl : pyStrip url = watchURL ps)
    (hgood : ∀ p ∈ ps, goodStr p.1 = true ∧ goodStr p.2 = true)
    (hps : ps = l1 ++ (⟨['v'], vid⟩ : Str × Str) :: l2)
    (hl1 : ∀ p ∈ l1, p.1 ≠ ['v'])
    (hid : vid ≠ []) :
    extract_video_id url = .ok vid := by
  have hqc : ∀ c ∈ joinAmp (ps.map renderPair), queryChar c = true := by
    apply queryChar_joinAmp
    intro f hf
    obtain ⟨p, hp, rfl⟩ := List.mem_map.mp hf
    exact queryChar_renderPair p (hgood p hp).1 (hgood p hp).2
  have hb1 : listOccurs "youtu.be/".toList (watchURL ps) = false := no_short_pattern _ hqc
  have hb2 : listOccurs ['v', '='] (watchURL ps) = true := has_v_eq ps l1 l2 vid hps
  have hquery : urlQuery (watchURL ps) = joinAmp (ps.map renderPair) :=
    urlQuery_watchURL _ hqc
  have hfp : firstParam ['v'] (joinAmp (ps.map renderPair)) = some vid := by
    rw [hps]
    exact firstParam_watch l1 l2 vid (hps ▸ hgood) hl1 hid
  simp only [extract_video_id, hurl, hb1, hb2, hquery, hfp, Bool.false_eq_true, if_false,
    if_true]
  rw [if_pos hid]

/-- C3 (amended): a URL whose trimmed form contains neither "youtu.be/"
nor "v=" makes `extract_video_id` fail with the invalid-URL `ValueError`;
however, for URLs that do match a pattern trigger but carry no id, the
string-split fallback can silently return the empty string (see the
counterexample). -/
theorem extract_unrecognized_fails (url : Str)
    (h1 : listOccurs "youtu.be/".toList (pyStrip url) = false)
    (h2 : listOccurs ['v', '='] (pyStrip url) = false) :
    extract_video_id url =
      .error ⟨ "ValueError".toList, "Please use a standard YouTube URL".toList⟩ := by
  simp only [extract_video_id, h1, h2, Bool.false_eq_true, if_false]

/-- Witness for C2 at the claim's example URL, whitespace-padded, with an
extra `t=5s` parameter. -/
theorem extract_canonical_watch_witness :
    extract_video_id "  https://www.youtube.com/watch?v=abc12345678&t=5s  ".toList =
      .ok "abc12345678".toList :=
  extract_canonical_watch _ _
    [(['v'], "abc12345678".toList), (['t'], "5s".toList)]
    [] [(['t'], "5s".toList)]
    (by decide) (by decide) (by decide) (by decide) (by decide)

/-- Witness for C3 (amended) at a non-YouTube URL. -/
theorem extract_unrecognized_fails_witness :
    extract_video_id "https://example.com/page".toList =
      .error ⟨ "ValueError".toList, "Please use a standard YouTube URL".toList⟩ :=
  extract_unrecognized_fails _ (by decide) (by decide)

/-- Counterexample for C3 as stated: the malformed short-link URL
"https://youtu.be/" makes extraction silently return the empty string via
the fallback split instead of failing. -/
theorem extract_empty_id_counterexample :
    extract_video_id "https://youtu.be/".toList = .ok [] := by
  decide
